import Mathlib

/-!
Verification of the `foropts` low-level argument classifier.

A shallow embedding of the repository's low-level command-line tokenizer
(`src/low/iter.rs` with its configuration abstraction `src/low/config.rs`,
flag identities `src/low/flag.rs`, and the string helper `src/util.rs`).

Strings are modelled as lists of characters (`Str`); argument vectors as
lists of such strings.  Rust operations that can panic (the byte-range
slicing inside `parse_long`) are embedded as `Option`-returning guarded
slices, so "the engine never panics" is the provable statement that the
step function never returns `none`.
-/

namespace Foropts

/-- Borrowed string slices `&str`, modelled at character level. -/
abbrev Str := List Char

/-- Embeds `util::split_first_str`: `None`, or the first character and the rest. -/
def split_first_str (s : Str) : Option (Char × Str) :=
  match s with
  | [] => none
  | c :: rest => some (c, rest)

/-- Embeds `str::find('=')`: character index of the first `'='`, if any. -/
def strFindEq : Str → Option Nat
  | [] => none
  | c :: rest => if c = '=' then some 0 else (strFindEq rest).map (· + 1)

/-- Range slicing `&s[lo .. hi]`; out-of-range indices panic in Rust,
    modelled by `none`. -/
def strSlice (s : Str) (lo hi : Nat) : Option Str :=
  if lo ≤ hi ∧ hi ≤ s.length then some ((s.take hi).drop lo) else none

/-- Embeds `low::flag::Flag`, monomorphised at the borrowed string type used by
    the iterator (`Flag<&str>`). -/
inductive Flag where
  | Short : Char → Flag
  | Long : Str → Flag
  deriving DecidableEq, Repr

/-- Embeds `Flag::is`: equality against another flag, comparing the underlying
    character or the borrowed text; a short never equals a long. -/
def Flag.is : Flag → Flag → Bool
  | Flag.Short c1, Flag.Short c2 => c1 = c2
  | Flag.Long s1, Flag.Long s2 => s1 = s2
  | _, _ => false

/-- Embeds `low::config::Presence`. -/
inductive Presence where
  | Always
  | IfAttached
  | Never
  deriving DecidableEq, Repr

/-- Embeds `impl From<bool> for Presence`. -/
def presenceOfBool (b : Bool) : Presence :=
  if b then Presence.Always else Presence.Never

/-- Embeds `low::iter::ErrorKind`. -/
inductive ErrorKind where
  | UnknownFlag : Flag → ErrorKind
  | MissingParam : Flag → ErrorKind
  | UnexpectedParam : Flag → Str → ErrorKind
  deriving DecidableEq, Repr

/-- Embeds `low::iter::Item`. -/
inductive Item where
  | Opt : Flag → Option Str → Item
  | Positional : Str → Item
  | Error : ErrorKind → Item
  deriving DecidableEq, Repr

/-- Embeds `low::iter::State`: the iterator's tri-state. -/
inductive St where
  | Start
  | ShortOpts : Str → St
  | PositionalOnly
  deriving DecidableEq, Repr

/-- The `low::config::Config` capability: lookups from a short character
    or a long name to an optional `Presence`. -/
@[ext]
structure Config where
  get_short_param : Char → Option Presence
  get_long_param : Str → Option Presence

/-- The `if let Some(index) = after_hyphens.find('=')` arm of
    `Iter::parse_long`: name and value already split.  Never consumes a
    further raw argument. -/
def parse_long_split (cfg : Config) (long param : Str) (args : List Str) :
    Item × List Str :=
  match cfg.get_long_param long with
  | none => (Item.Error (ErrorKind.UnknownFlag (Flag.Long long)), args)
  | some Presence.Never =>
      (Item.Error (ErrorKind.UnexpectedParam (Flag.Long long) param), args)
  | some Presence.IfAttached => (Item.Opt (Flag.Long long) (some param), args)
  | some Presence.Always => (Item.Opt (Flag.Long long) (some param), args)

/-- The no-`'='` arm of `Iter::parse_long`: the whole text is the name; an
    `Always` flag consumes the next raw argument via `next_arg`. -/
def parse_long_nosplit (cfg : Config) (long : Str) (args : List Str) :
    Item × List Str :=
  match cfg.get_long_param long with
  | none => (Item.Error (ErrorKind.UnknownFlag (Flag.Long long)), args)
  | some Presence.Never => (Item.Opt (Flag.Long long) none, args)
  | some Presence.IfAttached => (Item.Opt (Flag.Long long) none, args)
  | some Presence.Always =>
    match args with
    | [] => (Item.Error (ErrorKind.MissingParam (Flag.Long long)), [])
    | a :: rest => (Item.Opt (Flag.Long long) (some a), rest)

/-- Embeds `Iter::parse_long`, acting on the text after the leading `"--"` and the
    remaining raw arguments.  The slicing around the first `'='` is guarded
    (`none` = a Rust panic); the iterator state after a long parse is always
    `Start`.  Returns the item and the remaining arguments. -/
def parse_long (cfg : Config) (after_hyphens : Str) (args : List Str) :
    Option (Item × List Str) :=
  match strFindEq after_hyphens with
  | some index =>
    match strSlice after_hyphens 0 index,
          strSlice after_hyphens (index + 1) after_hyphens.length with
    | some long, some param => some (parse_long_split cfg long param args)
    | _, _ => none
  | none => some (parse_long_nosplit cfg after_hyphens args)

/-- Embeds `Iter::parse_short` on character `c` with remainder `rest` of the
    cluster.  `cur` is the string held by the `ShortOpts` state at the time
    of the call (always `c :: rest`): the source's `IfAttached` branch with
    an empty remainder returns without assigning `self.state`, so the state
    stays `ShortOpts cur` there.  Returns item, new state, remaining args. -/
def parse_short (cfg : Config) (c : Char) (rest : Str) (cur : Str)
    (args : List Str) : Item × St × List Str :=
  match cfg.get_short_param c with
  | none => (Item.Error (ErrorKind.UnknownFlag (Flag.Short c)), St.ShortOpts rest, args)
  | some Presence.Always =>
    match rest with
    | [] =>
      match args with
      | [] => (Item.Error (ErrorKind.MissingParam (Flag.Short c)), St.Start, [])
      | a :: args' => (Item.Opt (Flag.Short c) (some a), St.Start, args')
    | _ :: _ => (Item.Opt (Flag.Short c) (some rest), St.Start, args)
  | some Presence.IfAttached =>
    match rest with
    | [] => (Item.Opt (Flag.Short c) none, St.ShortOpts cur, args)
    | _ :: _ => (Item.Opt (Flag.Short c) (some rest), St.Start, args)
  | some Presence.Never => (Item.Opt (Flag.Short c) none, St.ShortOpts rest, args)

/-- One outcome of `Iter::next`: either the iterator returned `None`
    (`done`; the machine is then at `Start` with no arguments left), or it
    yielded an item together with the successor state and arguments. -/
inductive StepRes where
  | done : StepRes
  | item : Item → St → List Str → StepRes
  deriving DecidableEq, Repr

/-- Package a `parse_short` result as a step outcome. -/
def mkStep (p : Item × St × List Str) : StepRes :=
  StepRes.item p.1 p.2.1 p.2.2

/-- The `PositionalOnly` arm of `Iter::next`: every remaining token is
    emitted verbatim as `Positional`. -/
def posOnlyStep : List Str → StepRes
  | [] => StepRes.done
  | arg :: args => StepRes.item (Item.Positional arg) St.PositionalOnly args

/-- The `Start` arm of `Iter::next` (also reached from `ShortOpts ""`),
    including the loop through `PositionalOnly` after consuming `"--"`.
    `none` models a panic. -/
def startStep (cfg : Config) (args0 : List Str) : Option StepRes :=
  match args0 with
  | [] => some StepRes.done
  | arg :: args =>
    match split_first_str arg with
    | none => some (StepRes.item (Item.Positional arg) St.Start args)
    | some (c0, rest) =>
      if c0 = '-' then
        match split_first_str rest with
        | none => some (StepRes.item (Item.Positional arg) St.Start args)
        | some (c1, tail) =>
          if c1 = '-' then
            match tail with
            | [] => some (posOnlyStep args)
            | _ :: _ => (parse_long cfg tail args).map
                (fun p => StepRes.item p.1 St.Start p.2)
          else
            some (mkStep (parse_short cfg c1 tail (c1 :: tail) args))
      else
        some (StepRes.item (Item.Positional arg) St.Start args)

/-- Embeds `Iter::next`: one pull from the classification engine.  `none` models a
    panic; `some StepRes.done` models the iterator returning `None`. -/
def nextItem (cfg : Config) (st : St) (args : List Str) : Option StepRes :=
  match st with
  | St.Start => startStep cfg args
  | St.ShortOpts rest =>
    match split_first_str rest with
    | none => startStep cfg args
    | some (c, rrest) => some (mkStep (parse_short cfg c rrest (c :: rrest) args))
  | St.PositionalOnly => some (posOnlyStep args)

/-- Pull at most `n` items, collecting them in order together with the final
    state and remaining raw arguments.  `none` models a panic during one of
    the pulls; once the iterator reports `done` the machine rests at
    `(Start, [])`. -/
def pullN (cfg : Config) : Nat → St → List Str → Option (List Item × St × List Str)
  | 0, st, args => some ([], st, args)
  | n + 1, st, args =>
    match nextItem cfg st args with
    | none => none
    | some StepRes.done => some ([], St.Start, [])
    | some (StepRes.item it st' args') =>
      (pullN cfg n st' args').map (fun r => (it :: r.1, r.2.1, r.2.2))

/-- Collect the items of a fresh iteration over `args` with fuel `n`. -/
def collect (cfg : Config) (n : Nat) (args : List Str) : Option (List Item) :=
  (pullN cfg n St.Start args).map (fun r => r.1)

/-- A configuration registering exactly one short flag. -/
def cfgShort (c : Char) (p : Presence) : Config :=
  ⟨fun d => if d = c then some p else none, fun _ => none⟩

/-- A configuration registering exactly one long flag. -/
def cfgLong (l : Str) (p : Presence) : Config :=
  ⟨fun _ => none, fun m => if m = l then some p else none⟩

/-- A configuration registering no flags at all. -/
def cfgNone : Config :=
  ⟨fun _ => none, fun _ => none⟩

/-- Embeds `impl<T: Config, U: Config> Config for (T, U)`: lookup tries the first
    configuration and falls back to the second via `or_else`. -/
def pairConfig (a b : Config) : Config :=
  ⟨fun s => (a.get_short_param s).orElse (fun _ => b.get_short_param s),
   fun l => (a.get_long_param l).orElse (fun _ => b.get_long_param l)⟩

/-- Insertion into a hash map modelled as an association list: the new
    binding replaces any existing entry for the key, which is the
    observable behavior of `HashMap::insert`. -/
def hmInsert {κ : Type} [DecidableEq κ] (m : List (κ × Presence)) (k : κ)
    (v : Presence) : List (κ × Presence) :=
  (k, v) :: m.filter (fun p => decide (p.1 ≠ k))

/-- Embeds `HashMap::get(&k).cloned()` on the association-list model. -/
def hmGet {κ : Type} [DecidableEq κ] (m : List (κ × Presence)) (k : κ) :
    Option Presence :=
  (m.find? (fun p => decide (p.1 = k))).map (fun p => p.2)

/-- Embeds `low::config::HashConfig`: separate maps for short and long options. -/
structure HashConfig where
  short_opts : List (Char × Presence)
  long_opts : List (Str × Presence)

/-- Embeds `HashConfig::new`. -/
def HashConfig.empty : HashConfig := ⟨[], []⟩

/-- Embeds `HashConfig::short`. -/
def HashConfig.short (self : HashConfig) (flag : Char) (p : Presence) :
    HashConfig :=
  ⟨hmInsert self.short_opts flag p, self.long_opts⟩

/-- Embeds `HashConfig::long`. -/
def HashConfig.long (self : HashConfig) (flag : Str) (p : Presence) :
    HashConfig :=
  ⟨self.short_opts, hmInsert self.long_opts flag p⟩

/-- Embeds `HashConfig::opt`: dispatch on the flag's constructor. -/
def HashConfig.opt (self : HashConfig) (flag : Flag) (p : Presence) :
    HashConfig :=
  match flag with
  | Flag.Short s => self.short s p
  | Flag.Long l => self.long l p

/-- The hash-map-backed configuration built by registering `regs` in order
    (each registration one `opt` call on an initially empty `HashConfig`). -/
def hashConfigOf (regs : List (Flag × Presence)) : HashConfig :=
  regs.foldl (fun acc r => acc.opt r.1 r.2) HashConfig.empty

/-- Embeds `impl Config for HashConfig`. -/
def HashConfig.toConfig (h : HashConfig) : Config :=
  ⟨fun c => hmGet h.short_opts c, fun l => hmGet h.long_opts l⟩

/-- Embeds `impl Config for [(Flag<L>, P)]`: linear search with `Flag::is`, first
    match wins. -/
def sliceConfig (regs : List (Flag × Presence)) : Config :=
  ⟨fun name => (regs.find? (fun pair => pair.1.is (Flag.Short name))).map
      (fun pair => pair.2),
   fun name => (regs.find? (fun pair => pair.1.is (Flag.Long name))).map
      (fun pair => pair.2)⟩

/-- Embeds `impl Config for FnConfig`: both lookups call the stored function. -/
def fnConfig (f : Flag → Option Presence) : Config :=
  ⟨fun c => f (Flag.Short c), fun l => f (Flag.Long l)⟩

/-- The lookup function induced by a registration list. -/
def regLookup (regs : List (Flag × Presence)) (fl : Flag) : Option Presence :=
  (regs.find? (fun pair => pair.1.is fl)).map (fun pair => pair.2)

/-- The function-backed configuration built from the registrations. -/
def fnConfigOf (regs : List (Flag × Presence)) : Config :=
  fnConfig (regLookup regs)

section StepLemmas

variable {cfg : Config} {st st' : St} {args args' : List Str} {it : Item}

theorem pullN_succ_item (n : Nat)
    (h : nextItem cfg st args = some (StepRes.item it st' args')) :
    pullN cfg (n + 1) st args =
      (pullN cfg n st' args').map (fun r => (it :: r.1, r.2.1, r.2.2)) := by
  simp [pullN, h]

theorem pullN_succ_done (n : Nat)
    (h : nextItem cfg st args = some StepRes.done) :
    pullN cfg (n + 1) st args = some ([], St.Start, []) := by
  simp [pullN, h]

theorem pullN_start_nil (n : Nat) :
    pullN cfg n St.Start [] = some ([], St.Start, []) := by
  cases n with
  | zero => rfl
  | succ m => rfl

end StepLemmas

/-- Claim C10: under every configuration, an empty-string token is
    classified as `Positional ""` — it takes the path of a token not
    starting with `'-'`, produces neither an error nor a panic, and
    consumes exactly that one raw token. -/
theorem claim_C10 (cfg : Config) (args : List Str) :
    nextItem cfg St.Start ([] :: args) =
      some (StepRes.item (Item.Positional []) St.Start args) := rfl

/-- Claim C2: the token `"--"` is consumed without emitting an item, and
    every subsequent token — including ones starting with `'-'` — is emitted
    verbatim as `Positional`; with short flag `'a'` registered (as a plain
    flag, `Never`), `["-a", "--", "-a"]` yields exactly
    `[Opt(Short 'a', None), Positional "-a"]`. -/
theorem claim_C2 :
    (∀ (cfg : Config) (a : Str) (args : List Str),
      nextItem cfg St.PositionalOnly (a :: args) =
        some (StepRes.item (Item.Positional a) St.PositionalOnly args))
    ∧ (∀ cfg : Config, nextItem cfg St.Start [['-', '-']] = some StepRes.done)
    ∧ (∀ (cfg : Config) (a : Str) (args : List Str),
      nextItem cfg St.Start (['-', '-'] :: a :: args) =
        some (StepRes.item (Item.Positional a) St.PositionalOnly args))
    ∧ (∀ n : Nat,
      pullN (cfgShort 'a' Presence.Never) (n + 3) St.Start
          [['-', 'a'], ['-', '-'], ['-', 'a']] =
        some ([Item.Opt (Flag.Short 'a') none, Item.Positional ['-', 'a']],
          St.Start, [])) := by
  refine ⟨fun cfg a args => rfl, fun cfg => rfl, fun cfg a args => rfl, fun n => ?_⟩
  rw [show n + 3 = (n + 2) + 1 from rfl,
    pullN_succ_item (n + 2)
      (show nextItem (cfgShort 'a' Presence.Never) St.Start
          [['-', 'a'], ['-', '-'], ['-', 'a']] =
        some (StepRes.item (Item.Opt (Flag.Short 'a') none) (St.ShortOpts [])
          [['-', '-'], ['-', 'a']]) by decide),
    show n + 2 = (n + 1) + 1 from rfl,
    pullN_succ_item (n + 1)
      (show nextItem (cfgShort 'a' Presence.Never) (St.ShortOpts [])
          [['-', '-'], ['-', 'a']] =
        some (StepRes.item (Item.Positional ['-', 'a']) St.PositionalOnly [])
        by decide),
    pullN_succ_done n
      (show nextItem (cfgShort 'a' Presence.Never) St.PositionalOnly [] =
        some StepRes.done by decide)]
  rfl

/-- Claim C3: with short flag `'o'` registered `Always`, `["-oafile"]`
    yields exactly `[Opt(Short 'o', Some "afile")]` — the whole remainder
    becomes the parameter — and `["-o", "afile"]` yields the same single
    item while consuming both raw tokens. -/
theorem claim_C3 (n : Nat) :
    pullN (cfgShort 'o' Presence.Always) (n + 2) St.Start
        [['-', 'o', 'a', 'f', 'i', 'l', 'e']] =
      some ([Item.Opt (Flag.Short 'o') (some ['a', 'f', 'i', 'l', 'e'])],
        St.Start, [])
    ∧ pullN (cfgShort 'o' Presence.Always) (n + 2) St.Start
        [['-', 'o'], ['a', 'f', 'i', 'l', 'e']] =
      some ([Item.Opt (Flag.Short 'o') (some ['a', 'f', 'i', 'l', 'e'])],
        St.Start, []) := by
  constructor
  · rw [show n + 2 = (n + 1) + 1 from rfl,
      pullN_succ_item (n + 1)
        (show nextItem (cfgShort 'o' Presence.Always) St.Start
            [['-', 'o', 'a', 'f', 'i', 'l', 'e']] =
          some (StepRes.item (Item.Opt (Flag.Short 'o')
            (some ['a', 'f', 'i', 'l', 'e'])) St.Start []) by decide),
      pullN_start_nil (n + 1)]
    rfl
  · rw [show n + 2 = (n + 1) + 1 from rfl,
      pullN_succ_item (n + 1)
        (show nextItem (cfgShort 'o' Presence.Always) St.Start
            [['-', 'o'], ['a', 'f', 'i', 'l', 'e']] =
          some (StepRes.item (Item.Opt (Flag.Short 'o')
            (some ['a', 'f', 'i', 'l', 'e'])) St.Start []) by decide),
      pullN_start_nil (n + 1)]
    rfl

/-- Claim C6: with no flags registered, `["-eieio"]` yields exactly five
    consecutive `Error (UnknownFlag (Short _))` items for `e,i,e,i,o` in
    that order — an unknown short flag never aborts the cluster. -/
theorem claim_C6 (n : Nat) :
    pullN cfgNone (n + 6) St.Start [['-', 'e', 'i', 'e', 'i', 'o']] =
      some ([Item.Error (ErrorKind.UnknownFlag (Flag.Short 'e')),
             Item.Error (ErrorKind.UnknownFlag (Flag.Short 'i')),
             Item.Error (ErrorKind.UnknownFlag (Flag.Short 'e')),
             Item.Error (ErrorKind.UnknownFlag (Flag.Short 'i')),
             Item.Error (ErrorKind.UnknownFlag (Flag.Short 'o'))],
        St.Start, []) := by
  rw [show n + 6 = (n + 5) + 1 from rfl,
    pullN_succ_item (n + 5)
      (show nextItem cfgNone St.Start [['-', 'e', 'i', 'e', 'i', 'o']] =
        some (StepRes.item (Item.Error (ErrorKind.UnknownFlag (Flag.Short 'e')))
          (St.ShortOpts ['i', 'e', 'i', 'o']) []) by decide),
    show n + 5 = (n + 4) + 1 from rfl,
    pullN_succ_item (n + 4)
      (show nextItem cfgNone (St.ShortOpts ['i', 'e', 'i', 'o']) [] =
        some (StepRes.item (Item.Error (ErrorKind.UnknownFlag (Flag.Short 'i')))
          (St.ShortOpts ['e', 'i', 'o']) []) by decide),
    show n + 4 = (n + 3) + 1 from rfl,
    pullN_succ_item (n + 3)
      (show nextItem cfgNone (St.ShortOpts ['e', 'i', 'o']) [] =
        some (StepRes.item (Item.Error (ErrorKind.UnknownFlag (Flag.Short 'e')))
          (St.ShortOpts ['i', 'o']) []) by decide),
    show n + 3 = (n + 2) + 1 from rfl,
    pullN_succ_item (n + 2)
      (show nextItem cfgNone (St.ShortOpts ['i', 'o']) [] =
        some (StepRes.item (Item.Error (ErrorKind.UnknownFlag (Flag.Short 'i')))
          (St.ShortOpts ['o']) []) by decide),
    show n + 2 = (n + 1) + 1 from rfl,
    pullN_succ_item (n + 1)
      (show nextItem cfgNone (St.ShortOpts ['o']) [] =
        some (StepRes.item (Item.Error (ErrorKind.UnknownFlag (Flag.Short 'o')))
          (St.ShortOpts []) []) by decide),
    pullN_succ_done n
      (show nextItem cfgNone (St.ShortOpts []) [] = some StepRes.done by decide)]
  rfl

theorem strFindEq_lt (s : Str) (i : Nat) (h : strFindEq s = some i) :
    i < s.length := by
  induction s generalizing i with
  | nil => simp [strFindEq] at h
  | cons c rest ih =>
    unfold strFindEq at h
    by_cases hc : c = '='
    · rw [if_pos hc] at h
      injection h with h0
      subst h0
      simp
    · rw [if_neg hc] at h
      rcases hr : strFindEq rest with _ | j <;> rw [hr] at h
      · simp at h
      · simp at h
        subst h
        have := ih j hr
        simp
        omega

theorem parse_long_isSome (cfg : Config) (after : Str) (args : List Str) :
    (parse_long cfg after args).isSome = true := by
  unfold parse_long
  rcases hf : strFindEq after with _ | i
  · simp
  · have hi := strFindEq_lt after i hf
    have h1 : strSlice after 0 i = some ((after.take i).drop 0) := by
      unfold strSlice
      rw [if_pos ⟨Nat.zero_le i, Nat.le_of_lt hi⟩]
    have h2 : strSlice after (i + 1) after.length =
        some ((after.take after.length).drop (i + 1)) := by
      unfold strSlice
      rw [if_pos ⟨hi, Nat.le_refl _⟩]
    simp [h1, h2]

theorem parse_long_split_shape (cfg : Config) (long param : Str)
    (args : List Str) :
    (parse_long_split cfg long param args).2 = args
    ∧ (∀ fl, (parse_long_split cfg long param args).1 ≠
        Item.Error (ErrorKind.MissingParam fl))
    ∧ (∀ fl v, (parse_long_split cfg long param args).1 =
        Item.Error (ErrorKind.UnexpectedParam fl v) → ∃ l, fl = Flag.Long l) := by
  unfold parse_long_split
  rcases cfg.get_long_param long with _ | p
  · simp
  · cases p <;> simp

theorem parse_long_nosplit_shape (cfg : Config) (long : Str)
    (args : List Str) :
    (parse_long_nosplit cfg long args).2.length ≤ args.length
    ∧ (∀ fl, (parse_long_nosplit cfg long args).1 =
        Item.Error (ErrorKind.MissingParam fl) →
        (parse_long_nosplit cfg long args).2 = [])
    ∧ (∀ fl v, (parse_long_nosplit cfg long args).1 ≠
        Item.Error (ErrorKind.UnexpectedParam fl v)) := by
  unfold parse_long_nosplit
  rcases cfg.get_long_param long with _ | p
  · simp
  · cases p
    · cases args <;> simp
    · simp
    · simp

theorem parse_long_shape (cfg : Config) (after : Str) (args : List Str)
    (it : Item) (args' : List Str)
    (h : parse_long cfg after args = some (it, args')) :
    args'.length ≤ args.length
    ∧ (∀ fl, it = Item.Error (ErrorKind.MissingParam fl) → args' = [])
    ∧ (∀ fl v, it = Item.Error (ErrorKind.UnexpectedParam fl v) →
        ∃ l, fl = Flag.Long l) := by
  unfold parse_long at h
  split at h
  · split at h
    · injection h with h0
      rename_i long param hs1 hs2
      obtain ⟨h1, h2, h3⟩ := parse_long_split_shape cfg long param args
      rw [h0] at h1 h2 h3
      refine ⟨?_, fun fl hfl => absurd hfl (h2 fl), h3⟩
      have : args' = args := h1
      rw [this]
    · simp at h
  · injection h with h0
    obtain ⟨h1, h2, h3⟩ := parse_long_nosplit_shape cfg after args
    rw [h0] at h1 h2 h3
    exact ⟨h1, h2, fun fl v hfl => absurd hfl (h3 fl v)⟩

theorem parse_short_shape (cfg : Config) (c : Char) (rest cur : Str)
    (args : List Str) :
    (parse_short cfg c rest cur args).2.2.length ≤ args.length
    ∧ (∀ fl, (parse_short cfg c rest cur args).1 =
        Item.Error (ErrorKind.MissingParam fl) →
        (parse_short cfg c rest cur args).2.2 = []
        ∧ (parse_short cfg c rest cur args).2.1 = St.Start)
    ∧ (∀ fl v, (parse_short cfg c rest cur args).1 ≠
        Item.Error (ErrorKind.UnexpectedParam fl v)) := by
  unfold parse_short
  rcases hp : cfg.get_short_param c with _ | p
  · simp
  · cases p
    · cases rest
      · cases args <;> simp
      · simp
    · cases rest <;> simp
    · simp

theorem startStep_nil (cfg : Config) : startStep cfg [] = some StepRes.done := rfl

theorem startStep_empty_arg (cfg : Config) (args : List Str) :
    startStep cfg ([] :: args) =
      some (StepRes.item (Item.Positional []) St.Start args) := rfl

theorem startStep_nondash (cfg : Config) (c0 : Char) (rest : Str)
    (args : List Str) (h : c0 ≠ '-') :
    startStep cfg ((c0 :: rest) :: args) =
      some (StepRes.item (Item.Positional (c0 :: rest)) St.Start args) := by
  simp [startStep, split_first_str, h]

theorem startStep_dash_only (cfg : Config) (args : List Str) :
    startStep cfg (['-'] :: args) =
      some (StepRes.item (Item.Positional ['-']) St.Start args) := rfl

theorem startStep_ddash (cfg : Config) (args : List Str) :
    startStep cfg (['-', '-'] :: args) = some (posOnlyStep args) := rfl

theorem startStep_long (cfg : Config) (t : Char) (ts : Str) (args : List Str) :
    startStep cfg (('-' :: '-' :: t :: ts) :: args) =
      (parse_long cfg (t :: ts) args).map
        (fun p => StepRes.item p.1 St.Start p.2) := rfl

theorem startStep_shortopts (cfg : Config) (c1 : Char) (tail : Str)
    (args : List Str) (h : c1 ≠ '-') :
    startStep cfg (('-' :: c1 :: tail) :: args) =
      some (mkStep (parse_short cfg c1 tail (c1 :: tail) args)) := by
  simp [startStep, split_first_str, h]

theorem mkStep_inv (p : Item × St × List Str) (it : Item) (st' : St)
    (args' : List Str) (h : mkStep p = StepRes.item it st' args') :
    p.1 = it ∧ p.2.1 = st' ∧ p.2.2 = args' := by
  rcases p with ⟨a, b, c⟩
  injection h with h1 h2 h3
  exact ⟨h1, h2, h3⟩

theorem nextItem_start (cfg : Config) (args : List Str) :
    nextItem cfg St.Start args = startStep cfg args := rfl

theorem nextItem_shortopts_nil (cfg : Config) (args : List Str) :
    nextItem cfg (St.ShortOpts []) args = startStep cfg args := rfl

theorem nextItem_shortopts_cons (cfg : Config) (c : Char) (rrest : Str)
    (args : List Str) :
    nextItem cfg (St.ShortOpts (c :: rrest)) args =
      some (mkStep (parse_short cfg c rrest (c :: rrest) args)) := rfl

theorem nextItem_posOnly (cfg : Config) (args : List Str) :
    nextItem cfg St.PositionalOnly args = some (posOnlyStep args) := rfl

theorem startStep_shape (cfg : Config) (args0 : List Str) :
    (startStep cfg args0).isSome = true
    ∧ (∀ it st' args', startStep cfg args0 = some (StepRes.item it st' args') →
        args'.length ≤ args0.length
        ∧ (∀ fl, it = Item.Error (ErrorKind.MissingParam fl) →
            args' = [] ∧ st' = St.Start)
        ∧ (∀ fl v, it = Item.Error (ErrorKind.UnexpectedParam fl v) →
            ∃ l, fl = Flag.Long l)) := by
  rcases args0 with _ | ⟨arg, args1⟩
  · rw [startStep_nil]
    exact ⟨rfl, fun it st' args' h => by simp at h⟩
  · rcases arg with _ | ⟨c0, rest⟩
    · rw [startStep_empty_arg]
      refine ⟨rfl, fun it st' args' h => ?_⟩
      simp only [Option.some.injEq, StepRes.item.injEq] at h
      obtain ⟨rfl, rfl, rfl⟩ := h
      exact ⟨Nat.le_succ _, by simp, by simp⟩
    · by_cases hc0 : c0 = '-'
      · subst hc0
        rcases rest with _ | ⟨c1, tail⟩
        · rw [startStep_dash_only]
          refine ⟨rfl, fun it st' args' h => ?_⟩
          simp only [Option.some.injEq, StepRes.item.injEq] at h
          obtain ⟨rfl, rfl, rfl⟩ := h
          exact ⟨Nat.le_succ _, by simp, by simp⟩
        · by_cases hc1 : c1 = '-'
          · subst hc1
            rcases tail with _ | ⟨t, ts⟩
            · rw [startStep_ddash]
              rcases args1 with _ | ⟨a, args2⟩
              · exact ⟨rfl, fun it st' args' h => by simp [posOnlyStep] at h⟩
              · refine ⟨rfl, fun it st' args' h => ?_⟩
                simp only [posOnlyStep, Option.some.injEq, StepRes.item.injEq] at h
                obtain ⟨rfl, rfl, rfl⟩ := h
                refine ⟨by simp; omega, by simp, by simp⟩
            · rw [startStep_long]
              constructor
              · rw [Option.isSome_map']
                exact parse_long_isSome cfg (t :: ts) args1
              · intro it st' args' h
                rcases hpl : parse_long cfg (t :: ts) args1 with _ | ⟨it0, args0⟩ <;>
                  rw [hpl] at h
                · simp at h
                · simp only [Option.map_some', Option.some.injEq,
                    StepRes.item.injEq] at h
                  obtain ⟨rfl, rfl, rfl⟩ := h
                  obtain ⟨hl1, hl2, hl3⟩ :=
                    parse_long_shape cfg (t :: ts) args1 it0 args0 hpl
                  exact ⟨Nat.le_succ_of_le hl1, fun fl hfl => ⟨hl2 fl hfl, rfl⟩, hl3⟩
          · rw [startStep_shortopts cfg c1 tail args1 hc1]
            refine ⟨rfl, fun it st' args' h => ?_⟩
            injection h with h0
            obtain ⟨rfl, rfl, rfl⟩ := mkStep_inv _ _ _ _ h0
            obtain ⟨hh1, hh2, hh3⟩ := parse_short_shape cfg c1 tail (c1 :: tail) args1
            exact ⟨Nat.le_succ_of_le hh1, hh2, fun fl v hfl => absurd hfl (hh3 fl v)⟩
      · rw [startStep_nondash cfg c0 rest args1 hc0]
        refine ⟨rfl, fun it st' args' h => ?_⟩
        simp only [Option.some.injEq, StepRes.item.injEq] at h
        obtain ⟨rfl, rfl, rfl⟩ := h
        exact ⟨Nat.le_succ _, by simp, by simp⟩

theorem nextItem_shape (cfg : Config) (st : St) (args : List Str) :
    (nextItem cfg st args).isSome = true
    ∧ (∀ it st' args', nextItem cfg st args = some (StepRes.item it st' args') →
        args'.length ≤ args.length
        ∧ (∀ fl, it = Item.Error (ErrorKind.MissingParam fl) →
            args' = [] ∧ st' = St.Start)
        ∧ (∀ fl v, it = Item.Error (ErrorKind.UnexpectedParam fl v) →
            ∃ l, fl = Flag.Long l)) := by
  rcases st with _ | rest | _
  · rw [nextItem_start]
    exact startStep_shape cfg args
  · rcases rest with _ | ⟨c, rrest⟩
    · rw [nextItem_shortopts_nil]
      exact startStep_shape cfg args
    · rw [nextItem_shortopts_cons]
      refine ⟨rfl, fun it st' args' h => ?_⟩
      injection h with h0
      obtain ⟨rfl, rfl, rfl⟩ := mkStep_inv _ _ _ _ h0
      obtain ⟨hh1, hh2, hh3⟩ := parse_short_shape cfg c rrest (c :: rrest) args
      exact ⟨hh1, hh2, fun fl v hfl => absurd hfl (hh3 fl v)⟩
  · rw [nextItem_posOnly]
    rcases args with _ | ⟨a, args1⟩
    · exact ⟨rfl, fun it st' args' h => by simp [posOnlyStep] at h⟩
    · refine ⟨rfl, fun it st' args' h => ?_⟩
      simp only [posOnlyStep, Option.some.injEq, StepRes.item.injEq] at h
      obtain ⟨rfl, rfl, rfl⟩ := h
      exact ⟨Nat.le_succ _, by simp, by simp⟩

theorem pullN_isSome (cfg : Config) (n : Nat) (st : St) (args : List Str) :
    (pullN cfg n st args).isSome = true := by
  induction n generalizing st args with
  | zero => rfl
  | succ m ih =>
    have h1 := (nextItem_shape cfg st args).1
    rcases hn : nextItem cfg st args with _ | r
    · rw [hn] at h1; simp at h1
    · rcases r with _ | ⟨it, st', args'⟩
      · simp [pullN, hn]
      · simp only [pullN, hn, Option.isSome_map']
        exact ih st' args'

/-- Claim C1: for every configuration, state and remaining input, pulling an
    item never panics (the guarded step never returns `none`, and neither
    does any number of repeated pulls), and whenever a malformed token is
    reported — always as a typed `Error` item in-band — the iteration
    continues: the next pull is again well-defined on the remaining input,
    which only ever shrinks. -/
theorem claim_C1 (cfg : Config) (st : St) (args : List Str) :
    (nextItem cfg st args).isSome = true
    ∧ (∀ n, (pullN cfg n st args).isSome = true)
    ∧ (∀ k st' args',
        nextItem cfg st args = some (StepRes.item (Item.Error k) st' args') →
        args'.length ≤ args.length ∧ (nextItem cfg st' args').isSome = true) := by
  obtain ⟨h1, h2⟩ := nextItem_shape cfg st args
  exact ⟨h1, fun n => pullN_isSome cfg n st args,
    fun k st' args' h =>
      ⟨(h2 (Item.Error k) st' args' h).1, (nextItem_shape cfg st' args').1⟩⟩

/-- Claim C4: with short flag `'f'` registered `Always`, `["-f"]` yields
    exactly `[Error (MissingParam (Short 'f'))]` and the iteration then
    terminates with no further items; moreover a `MissingParam` error can
    arise only at end of input — whenever it is emitted, no raw arguments
    remain and the machine is back at `Start`. -/
theorem claim_C4 :
    (∀ n, pullN (cfgShort 'f' Presence.Always) (n + 1) St.Start [['-', 'f']] =
      some ([Item.Error (ErrorKind.MissingParam (Flag.Short 'f'))], St.Start, []))
    ∧ (∀ (cfg : Config) (st : St) (args : List Str) fl st' args',
        nextItem cfg st args =
          some (StepRes.item (Item.Error (ErrorKind.MissingParam fl)) st' args') →
        args' = [] ∧ st' = St.Start ∧ nextItem cfg st' args' = some StepRes.done) := by
  constructor
  · intro n
    rw [pullN_succ_item n
        (show nextItem (cfgShort 'f' Presence.Always) St.Start [['-', 'f']] =
          some (StepRes.item (Item.Error (ErrorKind.MissingParam (Flag.Short 'f')))
            St.Start []) by decide),
      pullN_start_nil n]
    rfl
  · intro cfg st args fl st' args' h
    obtain ⟨_, h2⟩ := nextItem_shape cfg st args
    obtain ⟨rfl, rfl⟩ :=
      (h2 (Item.Error (ErrorKind.MissingParam fl)) st' args' h).2.1 fl rfl
    exact ⟨rfl, rfl, rfl⟩

/-- Claim C5: with long flag `all` registered `Never`, `["--all=none"]`
    yields exactly `[Error (UnexpectedParam (Long "all") "none")]`, carrying
    the flag identity and the rejected value text; and no input whatsoever
    can produce an `UnexpectedParam` error for a short flag. -/
theorem claim_C5 :
    (∀ n, pullN (cfgLong ['a', 'l', 'l'] Presence.Never) (n + 1) St.Start
        [['-', '-', 'a', 'l', 'l', '=', 'n', 'o', 'n', 'e']] =
      some ([Item.Error (ErrorKind.UnexpectedParam (Flag.Long ['a', 'l', 'l'])
        ['n', 'o', 'n', 'e'])], St.Start, []))
    ∧ (∀ (cfg : Config) (st : St) (args : List Str) fl v st' args',
        nextItem cfg st args =
          some (StepRes.item (Item.Error (ErrorKind.UnexpectedParam fl v)) st' args') →
        ∃ l, fl = Flag.Long l) := by
  constructor
  · intro n
    rw [pullN_succ_item n
        (show nextItem (cfgLong ['a', 'l', 'l'] Presence.Never) St.Start
            [['-', '-', 'a', 'l', 'l', '=', 'n', 'o', 'n', 'e']] =
          some (StepRes.item (Item.Error (ErrorKind.UnexpectedParam
              (Flag.Long ['a', 'l', 'l']) ['n', 'o', 'n', 'e'])) St.Start [])
          by decide),
      pullN_start_nil n]
    rfl
  · intro cfg st args fl v st' args' h
    obtain ⟨_, h2⟩ := nextItem_shape cfg st args
    exact (h2 (Item.Error (ErrorKind.UnexpectedParam fl v)) st' args' h).2.2 fl v rfl

theorem pullN_shortopts_never (cfg : Config) (rest : Str) (args : List Str)
    (h : ∀ d ∈ rest, cfg.get_short_param d = some Presence.Never) :
    pullN cfg rest.length (St.ShortOpts rest) args =
      some (rest.map (fun d => Item.Opt (Flag.Short d) none),
        St.ShortOpts [], args) := by
  induction rest with
  | nil => rfl
  | cons d ds ih =>
    have hd : cfg.get_short_param d = some Presence.Never := h d (by simp)
    have hstep : nextItem cfg (St.ShortOpts (d :: ds)) args =
        some (StepRes.item (Item.Opt (Flag.Short d) none) (St.ShortOpts ds) args) := by
      rw [nextItem_shortopts_cons]
      unfold parse_short
      rw [hd]
      rfl
    rw [show (d :: ds).length = ds.length + 1 from rfl,
      pullN_succ_item ds.length hstep,
      ih (fun e he => h e (by simp [he]))]
    rfl

/-- Claim C7: a short-cluster token of length `n` (leading `'-'`, then a
    non-`'-'` character followed by arbitrary characters) whose characters
    are all registered `Never` yields exactly `n` `Opt` items, one per
    character in order, each with no parameter, while consuming exactly
    that one raw token — the following arguments are untouched. -/
theorem claim_C7 (cfg : Config) (c : Char) (rest : Str) (args : List Str)
    (hc : c ≠ '-')
    (h : ∀ d ∈ c :: rest, cfg.get_short_param d = some Presence.Never) :
    pullN cfg (c :: rest).length St.Start (('-' :: c :: rest) :: args) =
      some ((c :: rest).map (fun d => Item.Opt (Flag.Short d) none),
        St.ShortOpts [], args) := by
  have hd : cfg.get_short_param c = some Presence.Never := h c (by simp)
  have hstep : nextItem cfg St.Start (('-' :: c :: rest) :: args) =
      some (StepRes.item (Item.Opt (Flag.Short c) none) (St.ShortOpts rest) args) := by
    rw [nextItem_start, startStep_shortopts cfg c rest args hc]
    unfold parse_short
    rw [hd]
    rfl
  rw [show (c :: rest).length = rest.length + 1 from rfl,
    pullN_succ_item rest.length hstep,
    pullN_shortopts_never cfg rest args (fun e he => h e (by simp [he]))]
  rfl

theorem claim_C7_witness :
    pullN (cfgShort 'v' Presence.Never) (('v' :: ['v']).length) St.Start
        (('-' :: 'v' :: ['v']) :: []) =
      some ((('v' :: ['v']).map (fun d => Item.Opt (Flag.Short d) none)),
        St.ShortOpts [], []) :=
  claim_C7 (cfgShort 'v' Presence.Never) 'v' ['v'] [] (by decide) (by decide)

/-- Claim C8: looking a key up in the pair combinator `(A, B)` returns
    `A`'s result whenever `A`'s lookup returns a registration, and
    otherwise returns `B`'s result; in particular, with `'v'` registered in
    both at different policies, the pair answers as `A` alone. -/
theorem claim_C8 :
    (∀ (a b : Config) (c : Char),
      ((a.get_short_param c).isSome = true →
        (pairConfig a b).get_short_param c = a.get_short_param c)
      ∧ (a.get_short_param c = none →
        (pairConfig a b).get_short_param c = b.get_short_param c))
    ∧ (∀ (a b : Config) (l : Str),
      ((a.get_long_param l).isSome = true →
        (pairConfig a b).get_long_param l = a.get_long_param l)
      ∧ (a.get_long_param l = none →
        (pairConfig a b).get_long_param l = b.get_long_param l))
    ∧ (pairConfig (cfgShort 'v' Presence.Always)
          (cfgShort 'v' Presence.Never)).get_short_param 'v' =
        (cfgShort 'v' Presence.Always).get_short_param 'v' := by
  refine ⟨fun a b c => ⟨fun h => ?_, fun h => ?_⟩,
    fun a b l => ⟨fun h => ?_, fun h => ?_⟩, by decide⟩
  · rcases hs : a.get_short_param c with _ | p
    · rw [hs] at h; simp at h
    · simp [pairConfig, hs]
  · simp [pairConfig, h]
  · rcases hs : a.get_long_param l with _ | p
    · rw [hs] at h; simp at h
    · simp [pairConfig, hs]
  · simp [pairConfig, h]

theorem Flag.is_short_iff (fl : Flag) (c : Char) :
    fl.is (Flag.Short c) = true ↔ fl = Flag.Short c := by
  cases fl <;> simp [Flag.is]

theorem Flag.is_long_iff (fl : Flag) (l : Str) :
    fl.is (Flag.Long l) = true ↔ fl = Flag.Long l := by
  cases fl <;> simp [Flag.is]

theorem hmGet_insert_self {κ : Type} [DecidableEq κ]
    (m : List (κ × Presence)) (k : κ) (v : Presence) :
    hmGet (hmInsert m k v) k = some v := by
  unfold hmGet hmInsert
  have hk : decide (((k, v) : κ × Presence).1 = k) = true := by simp
  simp only [List.find?, hk]
  rfl

theorem find?_filter_ne {κ : Type} [DecidableEq κ]
    (m : List (κ × Presence)) (k k' : κ) (h : k' ≠ k) :
    (m.filter (fun p => decide (p.1 ≠ k))).find? (fun p => decide (p.1 = k')) =
      m.find? (fun p => decide (p.1 = k')) := by
  induction m with
  | nil => rfl
  | cons a as ih =>
    by_cases ha : a.1 = k
    · have h1 : decide (a.1 ≠ k) = false := by simp [ha]
      have h2 : decide (a.1 = k') = false := by
        rw [ha]
        simp only [decide_eq_false_iff_not]
        exact fun hh => h hh.symm
      rw [List.filter_cons, h1]
      simp only [Bool.false_eq_true, if_false, ih, List.find?, h2]
    · have h1 : decide (a.1 ≠ k) = true := by simp [ha]
      rw [List.filter_cons, h1]
      simp only [if_true]
      cases hb : decide (a.1 = k') with
      | false => simp only [List.find?, hb]; exact ih
      | true => simp only [List.find?, hb]

theorem hmGet_insert_other {κ : Type} [DecidableEq κ]
    (m : List (κ × Presence)) (k k' : κ) (v : Presence) (h : k' ≠ k) :
    hmGet (hmInsert m k v) k' = hmGet m k' := by
  unfold hmGet hmInsert
  have hk : decide (((k, v) : κ × Presence).1 = k') = false := by
    simp only [decide_eq_false_iff_not]
    exact fun hh => h hh.symm
  simp only [List.find?, hk, find?_filter_ne m k k' h]

theorem hashFold_get_short (regs : List (Flag × Presence)) (acc : HashConfig)
    (c : Char) (hnd : (regs.map Prod.fst).Nodup) :
    hmGet (regs.foldl (fun a r => a.opt r.1 r.2) acc).short_opts c =
      match regs.find? (fun pair => pair.1.is (Flag.Short c)) with
      | some pair => some pair.2
      | none => hmGet acc.short_opts c := by
  induction regs generalizing acc with
  | nil => rfl
  | cons r rs ih =>
    obtain ⟨f, p⟩ := r
    rw [List.map_cons, List.nodup_cons] at hnd
    obtain ⟨hf, hnd'⟩ := hnd
    rw [List.foldl_cons, ih (HashConfig.opt acc (f, p).1 (f, p).2) hnd']
    rcases f with c' | l
    · by_cases hc : c' = c
      · subst hc
        have hrs : rs.find? (fun pair => pair.1.is (Flag.Short c')) = none := by
          rw [List.find?_eq_none]
          intro x hx hxis
          have hmem : x.1 ∈ rs.map Prod.fst := List.mem_map_of_mem Prod.fst hx
          rw [(Flag.is_short_iff x.1 c').1 hxis] at hmem
          exact hf hmem
        have hhead : ((Flag.Short c', p) : Flag × Presence).1.is (Flag.Short c') =
            true := by simp [Flag.is]
        simp only [List.find?, hhead, hrs]
        exact hmGet_insert_self acc.short_opts c' p
      · have hhead : ((Flag.Short c', p) : Flag × Presence).1.is (Flag.Short c) =
            false := by simp [Flag.is, hc]
        simp only [List.find?, hhead]
        rcases hrs : rs.find? (fun pair => pair.1.is (Flag.Short c)) with _ | pair <;>
          rw [hrs]
        exact hmGet_insert_other acc.short_opts c' c p (fun hh => hc hh.symm)
    · have hhead : ((Flag.Long l, p) : Flag × Presence).1.is (Flag.Short c) =
          false := by simp [Flag.is]
      simp only [List.find?, hhead]
      rcases hrs : rs.find? (fun pair => pair.1.is (Flag.Short c)) with _ | pair <;>
        rw [hrs]
      all_goals rfl

theorem hashFold_get_long (regs : List (Flag × Presence)) (acc : HashConfig)
    (l : Str) (hnd : (regs.map Prod.fst).Nodup) :
    hmGet (regs.foldl (fun a r => a.opt r.1 r.2) acc).long_opts l =
      match regs.find? (fun pair => pair.1.is (Flag.Long l)) with
      | some pair => some pair.2
      | none => hmGet acc.long_opts l := by
  induction regs generalizing acc with
  | nil => rfl
  | cons r rs ih =>
    obtain ⟨f, p⟩ := r
    rw [List.map_cons, List.nodup_cons] at hnd
    obtain ⟨hf, hnd'⟩ := hnd
    rw [List.foldl_cons, ih (HashConfig.opt acc (f, p).1 (f, p).2) hnd']
    rcases f with c' | l'
    · have hhead : ((Flag.Short c', p) : Flag × Presence).1.is (Flag.Long l) =
          false := by simp [Flag.is]
      simp only [List.find?, hhead]
      rcases hrs : rs.find? (fun pair => pair.1.is (Flag.Long l)) with _ | pair <;>
        rw [hrs]
      all_goals rfl
    · by_cases hl : l' = l
      · subst hl
        have hrs : rs.find? (fun pair => pair.1.is (Flag.Long l')) = none := by
          rw [List.find?_eq_none]
          intro x hx hxis
          have hmem : x.1 ∈ rs.map Prod.fst := List.mem_map_of_mem Prod.fst hx
          rw [(Flag.is_long_iff x.1 l').1 hxis] at hmem
          exact hf hmem
        have hhead : ((Flag.Long l', p) : Flag × Presence).1.is (Flag.Long l') =
            true := by simp [Flag.is]
        simp only [List.find?, hhead, hrs]
        exact hmGet_insert_self acc.long_opts l' p
      · have hhead : ((Flag.Long l', p) : Flag × Presence).1.is (Flag.Long l) =
            false := by simp [Flag.is, hl]
        simp only [List.find?, hhead]
        rcases hrs : rs.find? (fun pair => pair.1.is (Flag.Long l)) with _ | pair <;>
          rw [hrs]
        exact hmGet_insert_other acc.long_opts l' l p (fun hh => hl hh.symm)

/-- Claim C9: for registrations with pairwise-distinct keys, the
    hash-map-backed, slice-backed and function-backed configurations agree
    on every short and long lookup — they are equal as configurations — and
    consequently the engine produces identical results under any of them. -/
theorem claim_C9 (regs : List (Flag × Presence))
    (hnd : (regs.map Prod.fst).Nodup) :
    (hashConfigOf regs).toConfig = sliceConfig regs
    ∧ sliceConfig regs = fnConfigOf regs
    ∧ (∀ (n : Nat) (st : St) (args : List Str),
        pullN ((hashConfigOf regs).toConfig) n st args =
          pullN (sliceConfig regs) n st args
        ∧ pullN (sliceConfig regs) n st args =
          pullN (fnConfigOf regs) n st args) := by
  have h1 : (hashConfigOf regs).toConfig = sliceConfig regs := by
    ext1
    · funext c
      show hmGet (hashConfigOf regs).short_opts c =
        (regs.find? (fun pair => pair.1.is (Flag.Short c))).map (fun pair => pair.2)
      rw [hashConfigOf, hashFold_get_short regs HashConfig.empty c hnd]
      rcases hf : regs.find? (fun pair => pair.1.is (Flag.Short c)) with _ | pair <;>
        rw [hf]
      all_goals rfl
    · funext l
      show hmGet (hashConfigOf regs).long_opts l =
        (regs.find? (fun pair => pair.1.is (Flag.Long l))).map (fun pair => pair.2)
      rw [hashConfigOf, hashFold_get_long regs HashConfig.empty l hnd]
      rcases hf : regs.find? (fun pair => pair.1.is (Flag.Long l)) with _ | pair <;>
        rw [hf]
      all_goals rfl
  have h2 : sliceConfig regs = fnConfigOf regs := rfl
  exact ⟨h1, h2, fun n st args => ⟨by rw [h1], by rw [h2]⟩⟩

theorem claim_C9_witness :
    (hashConfigOf [(Flag.Short 'a', Presence.Never),
        (Flag.Long ['a', 'l', 'l'], Presence.Always)]).toConfig =
      sliceConfig [(Flag.Short 'a', Presence.Never),
        (Flag.Long ['a', 'l', 'l'], Presence.Always)]
    ∧ sliceConfig [(Flag.Short 'a', Presence.Never),
        (Flag.Long ['a', 'l', 'l'], Presence.Always)] =
      fnConfigOf [(Flag.Short 'a', Presence.Never),
        (Flag.Long ['a', 'l', 'l'], Presence.Always)] :=
  ⟨(claim_C9 [(Flag.Short 'a', Presence.Never),
      (Flag.Long ['a', 'l', 'l'], Presence.Always)] (by decide)).1,
   (claim_C9 [(Flag.Short 'a', Presence.Never),
      (Flag.Long ['a', 'l', 'l'], Presence.Always)] (by decide)).2.1⟩

end Foropts
